import Mathlib

/-!
# Verification of the pool-factory resource pool

A shallow embedding of the `poolfactory` C++ library (headers under
`include/poolfactory/`): the single-threaded `Pool<T>` engine
(`pool.hpp`), the `ThreadSafePool<T>` post-wait acquire body, the
`PooledResource<T>` RAII handle (`pooled_resource.hpp`), the
`PoolConfig` value (`pool_config.hpp`) and `PoolFactory::validate_config`
(`pool_factory.hpp`).

Modelling conventions:
* `Result<X>` becomes `Except String X`.
* The effectful creator callback `std::function<Result<T>()>` is modelled
  as a stream `factory : Nat → Except String T` together with a call
  counter `factory_calls` in the pool state: the n-th invocation of the
  creator returns `factory n`.
* The nullable `std::function` members `validator_` and `resetter_`
  become `Option`-valued fields (`nullptr` is `none`).
* The resetter `Result<Unit>(T&)` mutates its argument; it is modelled as
  `T → Except String T`, returning the mutated resource on success.
* Counters are `size_t`; they are modelled as `Nat`.  The only decrement
  in the code is `--in_use_` in `do_release`, which is reached only via a
  live handle, i.e. with `in_use_ ≥ 1`, where `Nat` subtraction agrees
  with `size_t` subtraction; theorems about the release path carry the
  hypothesis `1 ≤ in_use` to make this explicit.
-/

namespace PoolFactory

/-- `PoolConfig` (pool_config.hpp): sizing, timeout and validation options.
Timeouts are in milliseconds, as in the C++ `std::chrono::milliseconds`
fields; they are stored but not used by the single-threaded engine. -/
structure PoolConfig where
  min_size : Nat := 0
  max_size : Nat := 10
  acquire_timeout : Nat := 30000
  idle_timeout : Nat := 300000
  validate_on_acquire : Bool := true
  validate_on_release : Bool := false
  deriving Repr, DecidableEq

/-- The immutable part of a `Pool<T>`: the three lifecycle callbacks
(`factory_`, `validator_`, `resetter_`) and the configuration `config_`.
The creator is a stream indexed by the number of creator invocations
made so far. -/
structure PoolFuns (T : Type) where
  factory : Nat → Except String T
  validator : Option (T → Bool)
  resetter : Option (T → Except String T)
  config : PoolConfig

/-- The mutable state of a `Pool<T>`: the idle deque `available_` (head =
front), the counters `in_use_` and `total_created_`, and the ghost
counter `factory_calls` indexing the creator stream. -/
structure PoolState (T : Type) where
  available : List T
  in_use : Nat
  total_created : Nat
  factory_calls : Nat

/-- `validator_ && !validator_(resource)` — true when a validator is
present and rejects the resource; a null validator never rejects. -/
def rejects (P : PoolFuns T) (r : T) : Bool :=
  match P.validator with
  | some v => !(v r)
  | none => false

/-- `Pool::create_and_wrap` (pool.hpp:165-174): invoke the creator; on
error propagate it; on success increment `total_created_` and `in_use_`
and hand out the new resource. -/
def createAndWrap (P : PoolFuns T) (s : PoolState T) :
    Except String T × PoolState T :=
  match P.factory s.factory_calls with
  | .error e => (.error e, { s with factory_calls := s.factory_calls + 1 })
  | .ok r =>
      (.ok r,
       { s with total_created := s.total_created + 1,
                in_use := s.in_use + 1,
                factory_calls := s.factory_calls + 1 })

/-- `Pool::acquire` (pool.hpp:53-75): pop the front of `available_` if
non-empty, validating on acquire when configured (a rejected resource is
dropped and a fresh one is created); with an empty idle deque, fail when
`in_use_ >= max_size`, otherwise create. The returned `T` is the
resource wrapped into the handle by `wrap_resource`. -/
def acquire (P : PoolFuns T) (s : PoolState T) :
    Except String T × PoolState T :=
  match s.available with
  | r :: rest =>
      let s' := { s with available := rest }
      if P.config.validate_on_acquire && rejects P r then
        createAndWrap P s'
      else
        (.ok r, { s' with in_use := s'.in_use + 1 })
  | [] =>
      if s.in_use ≥ P.config.max_size then
        (.error "Pool exhausted: max_size reached", s)
      else
        createAndWrap P s

/-- `Pool::do_release` (pool.hpp:137-157): decrement `in_use_`; run the
resetter if present, discarding the resource on reset failure; then, if
`validate_on_release` is configured and the validator rejects, discard;
otherwise push the (possibly reset) resource to the back of
`available_`. -/
def doRelease (P : PoolFuns T) (s : PoolState T) (r : T) : PoolState T :=
  let s1 := { s with in_use := s.in_use - 1 }
  match P.resetter with
  | some reset =>
      match reset r with
      | .error _ => s1
      | .ok r' =>
          if P.config.validate_on_release && rejects P r' then s1
          else { s1 with available := s1.available ++ [r'] }
  | none =>
      if P.config.validate_on_release && rejects P r then s1
      else { s1 with available := s1.available ++ [r] }

/-- `Pool::with_resource` (pool.hpp:82-102): acquire, propagate an
acquire error, otherwise run the body on the resource and wrap its value
in `ok`; the handle goes out of scope afterwards, running the release
path on the (possibly mutated) resource. The body gets mutable access,
so it is modelled as `T → R × T`. -/
def withResource (P : PoolFuns T) (f : T → R × T) (s : PoolState T) :
    Except String R × PoolState T :=
  match acquire P s with
  | (.error e, s') => (.error e, s')
  | (.ok r, s') =>
      let (out, r') := f r
      (.ok out, doRelease P s' r')

/-- The body of `ThreadSafePool::acquire` after the wait loop has exited
(pool.hpp:212-229): pop-and-validate from `available_` exactly as the
single-threaded engine, but create unconditionally when the idle deque
is empty (the wait condition has established there is room).
`create_and_wrap_locked` performs the same state transition as
`create_and_wrap`. -/
def tsAcquirePostWait (P : PoolFuns T) (s : PoolState T) :
    Except String T × PoolState T :=
  match s.available with
  | r :: rest =>
      let s' := { s with available := rest }
      if P.config.validate_on_acquire && rejects P r then
        createAndWrap P s'
      else
        (.ok r, { s' with in_use := s'.in_use + 1 })
  | [] => createAndWrap P s

/-- `PoolFactory::validate_config` (pool_factory.hpp:145-153). -/
def validateConfig (c : PoolConfig) : Except String Unit :=
  if c.max_size = 0 then .error "max_size cannot be 0"
  else if c.min_size > c.max_size then .error "min_size cannot exceed max_size"
  else .ok ()

/-- One iteration of the pre-warm loop in the `Pool` constructor
(pool.hpp:128-134): call the creator; on success push to the back of
`available_` and count it in `total_created_`; failures are skipped. -/
def prewarmStep (P : PoolFuns T) (s : PoolState T) : PoolState T :=
  match P.factory s.factory_calls with
  | .ok r =>
      { s with available := s.available ++ [r],
               total_created := s.total_created + 1,
               factory_calls := s.factory_calls + 1 }
  | .error _ => { s with factory_calls := s.factory_calls + 1 }

/-- The pre-warm loop, `n` iterations remaining. -/
def prewarm (P : PoolFuns T) : Nat → PoolState T → PoolState T
  | 0, s => s
  | n + 1, s => prewarm P n (prewarmStep P s)

/-- The `Pool` constructor (pool.hpp:124-135): start empty and pre-warm
`min_size` times. -/
def construct (P : PoolFuns T) : PoolState T :=
  prewarm P P.config.min_size ⟨[], 0, 0, 0⟩

/-- `PoolFactory::create_with_lifecycle` (pool_factory.hpp:67-82):
validate the configuration, then construct the pool. -/
def createPool (P : PoolFuns T) : Except String (PoolState T) :=
  match validateConfig P.config with
  | .error e => .error e
  | .ok _ => .ok (construct P)

/-- The number of successful creator invocations among calls
`start, start+1, …, start+n-1` of the creator stream. -/
def countOk (P : PoolFuns T) (start : Nat) : Nat → Nat
  | 0 => 0
  | n + 1 => (if (P.factory start).isOk then 1 else 0) + countOk P (start + 1) n

/-- Successful creator invocations among the first `n` calls. -/
def createdCount (P : PoolFuns T) (n : Nat) : Nat :=
  countOk P 0 n

/-!
## The RAII handle `PooledResource<T>` (pooled_resource.hpp)

The handle holds `resource_ : std::optional<T>` and a nullable
`releaser_ : std::function<void(T)>`. The releaser is modelled by an
abstract identity of type `R` (`nullptr` is `none`); an invocation of
the bound callback is recorded as a pair `(releaser identity, resource
value passed to it)`.

Moving a `std::optional<T>` move-constructs/assigns the contained value
but leaves the source optional *engaged* (`has_value()` stays true on
the source, which then contains a moved-from `T`). The model keeps the
original value in the engaged source slot; no theorem below depends on
the value of a moved-from slot, only on its engagement.
-/

/-- `PooledResource<T>`: the optional resource slot and the nullable
releaser. -/
structure PooledResource (T R : Type) where
  resource : Option T
  releaser : Option R
  deriving Repr, DecidableEq

/-- `PooledResource::has_value` (pooled_resource.hpp:55). -/
def hasValue (h : PooledResource T R) : Bool :=
  h.resource.isSome

/-- `PooledResource::release` (pooled_resource.hpp:77-83): if both the
resource and the releaser are present, invoke the releaser with the
resource, reset the slot and null the releaser; otherwise do nothing.
Returns the new handle state and the callback invocation, if any. -/
def releaseHandle (h : PooledResource T R) :
    PooledResource T R × Option (R × T) :=
  match h.resource, h.releaser with
  | some r, some rel => (⟨none, none⟩, some (rel, r))
  | _, _ => (h, none)

/-- The move constructor (pooled_resource.hpp:29-32): the destination
takes the resource slot and the releaser; the source's releaser is set
to `nullptr`, while its moved-from optional stays engaged. Returns
`(destination, source after the move)`. -/
def moveCtor (other : PooledResource T R) :
    PooledResource T R × PooledResource T R :=
  (⟨other.resource, other.releaser⟩, ⟨other.resource, none⟩)

/-- Move assignment `a = std::move(b)` for distinct handles
(pooled_resource.hpp:34-42, `this != &other` branch): release `a`
first, then take `b`'s slot and releaser, nulling `b`'s releaser.
Returns `(a after, b after, invocation fired by the release of a)`. -/
def moveAssign (a b : PooledResource T R) :
    PooledResource T R × PooledResource T R × Option (R × T) :=
  let (_, inv) := releaseHandle a
  (⟨b.resource, b.releaser⟩, ⟨b.resource, none⟩, inv)

/-- Move self-assignment (pooled_resource.hpp:35, `this == &other`): the
guard skips everything, so the handle is unchanged and no callback
fires. -/
def moveAssignSelf (a : PooledResource T R) :
    PooledResource T R × Option (R × T) :=
  (a, none)

/-- The operations a single handle can undergo: an explicit `release()`
call, being moved out of (the source side of a move), and destruction
(the destructor calls `release()`, pooled_resource.hpp:44). -/
inductive HandleOp where
  | rel : HandleOp
  | moveOut : HandleOp
  | dtor : HandleOp
  deriving Repr, DecidableEq

/-- Apply one operation to a handle, returning the new handle state and
the callback invocation it fired, if any. -/
def applyHandleOp (h : PooledResource T R) (op : HandleOp) :
    PooledResource T R × Option (R × T) :=
  match op with
  | .rel => releaseHandle h
  | .dtor => releaseHandle h
  | .moveOut => ((moveCtor h).2, none)

/-- Run a sequence of operations on a handle, counting the callback
invocations fired along the way. -/
def runHandleOps (h : PooledResource T R) :
    List HandleOp → PooledResource T R × Nat
  | [] => (h, 0)
  | op :: ops =>
      let (h', inv) := applyHandleOp h op
      let (h'', n) := runHandleOps h' ops
      (h'', (if inv.isSome then 1 else 0) + n)

/-!
## Reachable pool states

A configuration pairs the pool state with the (ghost) list of resources
currently held by outstanding handles. A successful `acquire` hands the
returned resource to a new handle; a release step takes any outstanding
handle's resource through `do_release` (each handle fires its releaser
exactly once, by the handle theorems below). Construction goes through
`PoolFactory`, which validates the configuration first.
-/

/-- One step of the pool state machine: an acquire (successful or not),
or the release of any outstanding resource. -/
inductive PoolStep (P : PoolFuns T) :
    PoolState T × List T → PoolState T × List T → Prop where
  | acq_ok {s hs r} :
      (acquire P s).1 = .ok r →
      PoolStep P (s, hs) ((acquire P s).2, r :: hs)
  | acq_err {s hs e} :
      (acquire P s).1 = .error e →
      PoolStep P (s, hs) ((acquire P s).2, hs)
  | rel {s pre post r} :
      PoolStep P (s, pre ++ r :: post) (doRelease P s r, pre ++ post)

/-- Pool configurations reachable from a factory-validated construction
by checkout and release operations. -/
inductive Reachable (P : PoolFuns T) : PoolState T × List T → Prop where
  | init :
      validateConfig P.config = .ok () →
      Reachable P (construct P, [])
  | step {c c'} : Reachable P c → PoolStep P c c' → Reachable P c'

/-- A concrete pool instantiation for exercising the theorems on
explicit inputs: a creator that always succeeds and returns its call
index, no validator, no resetter, `min_size = 1`, `max_size = 2`. -/
def witP : PoolFuns Nat where
  factory := fun n => .ok n
  validator := none
  resetter := none
  config := { min_size := 1, max_size := 2 }

/-- A concrete pool instantiation whose creator always fails. -/
def witPfail : PoolFuns Nat where
  factory := fun _ => .error "creation failed"
  validator := some (fun r => decide (r % 2 = 0))
  resetter := none
  config := { min_size := 0, max_size := 3 }

/-!
## Helper lemmas
-/

theorem countOk_le (P : PoolFuns T) (start n : Nat) :
    countOk P start n ≤ n := by
  induction n generalizing start with
  | zero => simp [countOk]
  | succ n ih =>
      simp only [countOk]
      have := ih (start + 1)
      split <;> omega

theorem countOk_succ (P : PoolFuns T) (start n : Nat) :
    countOk P start (n + 1) =
      countOk P start n + (if (P.factory (start + n)).isOk then 1 else 0) := by
  induction n generalizing start with
  | zero => simp [countOk]
  | succ n ih =>
      have h1 : countOk P start (n + 1 + 1) =
          (if (P.factory start).isOk then 1 else 0) + countOk P (start + 1) (n + 1) := rfl
      have h2 : countOk P start (n + 1) =
          (if (P.factory start).isOk then 1 else 0) + countOk P (start + 1) n := rfl
      rw [h1, ih (start + 1), h2]
      have : start + 1 + n = start + (n + 1) := by omega
      rw [this]
      omega

theorem createdCount_succ (P : PoolFuns T) (n : Nat) :
    createdCount P (n + 1) =
      createdCount P n + (if (P.factory n).isOk then 1 else 0) := by
  have := countOk_succ P 0 n
  simpa [createdCount] using this

theorem prewarmStep_fields (P : PoolFuns T) (s : PoolState T) :
    (prewarmStep P s).in_use = s.in_use ∧
    (prewarmStep P s).factory_calls = s.factory_calls + 1 ∧
    (prewarmStep P s).total_created =
      s.total_created + (if (P.factory s.factory_calls).isOk then 1 else 0) ∧
    (prewarmStep P s).available.length =
      s.available.length + (if (P.factory s.factory_calls).isOk then 1 else 0) := by
  unfold prewarmStep
  rcases hf : P.factory s.factory_calls with e | r <;>
    simp [hf, Except.isOk, Except.toBool]

theorem prewarm_state (P : PoolFuns T) (n : Nat) (s : PoolState T) :
    (prewarm P n s).in_use = s.in_use ∧
    (prewarm P n s).factory_calls = s.factory_calls + n ∧
    (prewarm P n s).total_created = s.total_created + countOk P s.factory_calls n ∧
    (prewarm P n s).available.length =
      s.available.length + countOk P s.factory_calls n := by
  induction n generalizing s with
  | zero => simp [prewarm, countOk]
  | succ n ih =>
      obtain ⟨p1, p2, p3, p4⟩ := prewarmStep_fields P s
      obtain ⟨h1, h2, h3, h4⟩ := ih (prewarmStep P s)
      have hc : countOk P s.factory_calls (n + 1) =
          (if (P.factory s.factory_calls).isOk then 1 else 0) +
            countOk P (s.factory_calls + 1) n := rfl
      have hrw : prewarm P (n + 1) s = prewarm P n (prewarmStep P s) := rfl
      rw [hrw, h1, h2, h3, h4, p1, p2, p3, p4, hc]
      omega

theorem construct_state (P : PoolFuns T) :
    (construct P).in_use = 0 ∧
    (construct P).factory_calls = P.config.min_size ∧
    (construct P).total_created = createdCount P P.config.min_size ∧
    (construct P).available.length = createdCount P P.config.min_size := by
  have := prewarm_state P P.config.min_size ⟨[], 0, 0, 0⟩
  simpa [construct, createdCount] using this

theorem validateConfig_ok_iff (c : PoolConfig) :
    validateConfig c = .ok () ↔ (c.max_size ≠ 0 ∧ c.min_size ≤ c.max_size) := by
  unfold validateConfig
  split
  · rename_i h
    constructor
    · intro he; exact Except.noConfusion he
    · intro hc; exfalso; omega
  · split
    · rename_i h1 h2
      constructor
      · intro he; exact Except.noConfusion he
      · intro hc; exfalso; omega
    · rename_i h1 h2
      constructor
      · intro _; exact ⟨h1, by omega⟩
      · intro _; rfl

/-- Field-level description of `do_release`: `in_use` drops by one,
`total_created` and the creator call counter are untouched, and the idle
deque either stays as it was (discard) or gains exactly one element at
the back. -/
theorem doRelease_fields (P : PoolFuns T) (s : PoolState T) (r : T) :
    (doRelease P s r).in_use = s.in_use - 1 ∧
    (doRelease P s r).total_created = s.total_created ∧
    (doRelease P s r).factory_calls = s.factory_calls ∧
    ((doRelease P s r).available = s.available ∨
      ∃ r', (doRelease P s r).available = s.available ++ [r']) := by
  unfold doRelease
  rcases hres : P.resetter with _ | reset <;> dsimp only
  · split
    · exact ⟨rfl, rfl, rfl, Or.inl rfl⟩
    · exact ⟨rfl, rfl, rfl, Or.inr ⟨r, rfl⟩⟩
  · rcases hr : reset r with e | r' <;> dsimp only
    · exact ⟨rfl, rfl, rfl, Or.inl rfl⟩
    · split
      · exact ⟨rfl, rfl, rfl, Or.inl rfl⟩
      · exact ⟨rfl, rfl, rfl, Or.inr ⟨r', rfl⟩⟩

theorem acquire_total_mono (P : PoolFuns T) (s : PoolState T) :
    s.total_created ≤ (acquire P s).2.total_created := by
  unfold acquire
  rcases hav : s.available with _ | ⟨x, rest⟩ <;> dsimp only
  · split
    · exact Nat.le_refl _
    · unfold createAndWrap
      rcases hf : P.factory s.factory_calls with e | v <;> dsimp only <;> omega
  · split
    · unfold createAndWrap
      rcases hf : P.factory s.factory_calls with e | v <;> dsimp only <;> omega
    · exact Nat.le_refl _

/-- The inductive invariant of the pool state machine: `in_use` counts
the outstanding handles; handles plus idle resources never exceed
`max_size`; every live or idle resource was created; `total_created`
counts the successful creator invocations. -/
def PoolInv (P : PoolFuns T) (c : PoolState T × List T) : Prop :=
  c.1.in_use = c.2.length ∧
  c.1.in_use + c.1.available.length ≤ P.config.max_size ∧
  c.1.in_use + c.1.available.length ≤ c.1.total_created ∧
  c.1.total_created = createdCount P c.1.factory_calls

theorem poolStep_inv (P : PoolFuns T) {c c' : PoolState T × List T}
    (hstep : PoolStep P c c') (hinv : PoolInv P c) : PoolInv P c' := by
  obtain ⟨hA, hB, hC, hD⟩ := hinv
  cases hstep with
  | @acq_ok s hs r h =>
      dsimp only at hA hB hC hD
      unfold PoolInv
      dsimp only
      unfold acquire at h ⊢
      rcases hav : s.available with _ | ⟨x, rest⟩ <;>
          rw [hav] at h <;>
          simp only [hav, List.length_nil, List.length_cons] at hB hC <;>
          dsimp only at h ⊢
      · by_cases hex : s.in_use ≥ P.config.max_size
        · rw [if_pos hex] at h
          exact Except.noConfusion h
        · rw [if_neg hex] at h ⊢
          unfold createAndWrap at h ⊢
          rcases hf : P.factory s.factory_calls with e | v <;>
            rw [hf] at h <;> dsimp only at h ⊢
          · exact Except.noConfusion h
          · injection h with hvr
            subst hvr
            have hcc := createdCount_succ P s.factory_calls
            rw [hf] at hcc
            simp [Except.isOk, Except.toBool] at hcc
            refine ⟨?_, ?_, ?_, ?_⟩ <;>
              (try simp only [hav, List.length_nil, List.length_cons]) <;> omega
      · by_cases hv : (P.config.validate_on_acquire && rejects P x) = true
        · rw [if_pos hv] at h ⊢
          unfold createAndWrap at h ⊢
          rcases hf : P.factory s.factory_calls with e | v <;>
            rw [hf] at h <;> dsimp only at h ⊢
          · exact Except.noConfusion h
          · injection h with hvr
            subst hvr
            have hcc := createdCount_succ P s.factory_calls
            rw [hf] at hcc
            simp [Except.isOk, Except.toBool] at hcc
            refine ⟨?_, ?_, ?_, ?_⟩ <;>
              (try simp only [List.length_nil, List.length_cons]) <;> omega
        · rw [if_neg hv] at h ⊢
          injection h with hvr
          subst hvr
          refine ⟨?_, ?_, ?_, ?_⟩ <;>
            (try simp only [List.length_nil, List.length_cons]) <;> omega
  | @acq_err s hs e h =>
      dsimp only at hA hB hC hD
      unfold PoolInv
      dsimp only
      unfold acquire at h ⊢
      rcases hav : s.available with _ | ⟨x, rest⟩ <;>
          rw [hav] at h <;>
          simp only [hav, List.length_nil, List.length_cons] at hB hC <;>
          dsimp only at h ⊢
      · by_cases hex : s.in_use ≥ P.config.max_size
        · rw [if_pos hex] at h ⊢
          refine ⟨?_, ?_, ?_, ?_⟩ <;>
            (try simp only [hav, List.length_nil, List.length_cons]) <;> omega
        · rw [if_neg hex] at h ⊢
          unfold createAndWrap at h ⊢
          rcases hf : P.factory s.factory_calls with e' | v <;>
            rw [hf] at h <;> dsimp only at h ⊢
          · have hcc := createdCount_succ P s.factory_calls
            rw [hf] at hcc
            simp [Except.isOk, Except.toBool] at hcc
            refine ⟨?_, ?_, ?_, ?_⟩ <;>
              (try simp only [hav, List.length_nil, List.length_cons]) <;> omega
          · exact Except.noConfusion h
      · by_cases hv : (P.config.validate_on_acquire && rejects P x) = true
        · rw [if_pos hv] at h ⊢
          unfold createAndWrap at h ⊢
          rcases hf : P.factory s.factory_calls with e' | v <;>
            rw [hf] at h <;> dsimp only at h ⊢
          · have hcc := createdCount_succ P s.factory_calls
            rw [hf] at hcc
            simp [Except.isOk, Except.toBool] at hcc
            refine ⟨?_, ?_, ?_, ?_⟩ <;> omega
          · exact Except.noConfusion h
        · rw [if_neg hv] at h
          exact Except.noConfusion h
  | @rel s pre post r =>
      dsimp only at hA hB hC hD
      obtain ⟨d1, d2, d3, d4⟩ := doRelease_fields P s r
      unfold PoolInv
      dsimp only
      simp only [List.length_append, List.length_cons] at hA
      have hlen2 : (pre ++ post).length = pre.length + post.length := by simp
      have hd4 : (doRelease P s r).available.length = s.available.length ∨
          (doRelease P s r).available.length = s.available.length + 1 := by
        rcases d4 with d4 | ⟨r', d4⟩
        · exact Or.inl (by rw [d4])
        · right; rw [d4]; simp
      refine ⟨?_, ?_, ?_, by rw [d2, d3, hD]⟩
      · rw [d1, hlen2]; omega
      · rw [d1]; rcases hd4 with h4 | h4 <;> rw [h4] <;> omega
      · rw [d1, d2]; rcases hd4 with h4 | h4 <;> rw [h4] <;> omega

theorem poolStep_total_mono (P : PoolFuns T) {c c' : PoolState T × List T}
    (hstep : PoolStep P c c') : c.1.total_created ≤ c'.1.total_created := by
  cases hstep with
  | @acq_ok s hs r h => exact acquire_total_mono P s
  | @acq_err s hs e h => exact acquire_total_mono P s
  | @rel s pre post r => exact Nat.le_of_eq ((doRelease_fields P s r).2.1).symm

theorem reachable_inv (P : PoolFuns T) {c : PoolState T × List T}
    (h : Reachable P c) : PoolInv P c := by
  induction h with
  | init hok =>
      obtain ⟨c1, c2, c3, c4⟩ := construct_state P
      obtain ⟨hmax, hminmax⟩ := (validateConfig_ok_iff P.config).1 hok
      have hle : createdCount P P.config.min_size ≤ P.config.min_size :=
        countOk_le P 0 P.config.min_size
      unfold PoolInv
      dsimp only
      refine ⟨?_, ?_, ?_, ?_⟩
      · rw [c1]; rfl
      · rw [c1, c4]; omega
      · rw [c1, c4, c3]; omega
      · rw [c3, c2]
  | step hr hstep ih => exact poolStep_inv P hstep ih

/-- Any operation on a handle whose releaser is already null fires no
callback and leaves the releaser null. -/
theorem applyHandleOp_no_releaser (res : Option T) (op : HandleOp) :
    (applyHandleOp (⟨res, none⟩ : PooledResource T R) op).2 = none ∧
    (applyHandleOp (⟨res, none⟩ : PooledResource T R) op).1.releaser = none := by
  cases op <;> rcases res with _ | r <;>
    simp [applyHandleOp, releaseHandle, moveCtor]

/-- A handle whose releaser is null fires no callback over any sequence
of operations. -/
theorem runHandleOps_released (res : Option T) (ops : List HandleOp) :
    (runHandleOps (⟨res, none⟩ : PooledResource T R) ops).2 = 0 := by
  induction ops generalizing res with
  | nil => rfl
  | cons op ops ih =>
      cases op <;> rcases res with _ | r <;>
        simp [runHandleOps, applyHandleOp, releaseHandle, moveCtor, ih]

theorem runHandleOps_le_one (h : PooledResource T R) (ops : List HandleOp) :
    (runHandleOps h ops).2 ≤ 1 := by
  induction ops generalizing h with
  | nil => exact Nat.zero_le 1
  | cons op ops ih =>
      obtain ⟨res, rel⟩ := h
      cases op <;> rcases res with _ | r <;> rcases rel with _ | rl <;>
        simp [runHandleOps, applyHandleOp, releaseHandle, moveCtor,
              runHandleOps_released, ih]

/-!
## The claims
-/

/-- C1: single-threaded checkout follows the specified algorithm.
With a non-empty idle deque the front resource is popped; if
`validate_on_acquire` is set and the validator rejects it, the resource
is discarded (the state passed on to creation has it removed and it is
never pushed back) and the creator path runs; otherwise `in_use` is
incremented and the front resource is handed out. With an empty idle
deque, checkout fails with the exhaustion error when
`in_use ≥ max_size`, and otherwise runs the creator: a creator error is
propagated unchanged, and on success `total_created` and `in_use` are
incremented and the fresh resource is handed out. -/
theorem acquire_follows_algorithm (P : PoolFuns T) (s : PoolState T) :
    (∀ r rest, s.available = r :: rest →
      ((P.config.validate_on_acquire && rejects P r) = true →
        acquire P s = createAndWrap P { s with available := rest }) ∧
      ((P.config.validate_on_acquire && rejects P r) = false →
        acquire P s =
          (.ok r, { s with available := rest, in_use := s.in_use + 1 }))) ∧
    (s.available = [] → P.config.max_size ≤ s.in_use →
      acquire P s = (.error "Pool exhausted: max_size reached", s)) ∧
    (s.available = [] → s.in_use < P.config.max_size →
      acquire P s = createAndWrap P s) ∧
    (∀ e, P.factory s.factory_calls = .error e →
      createAndWrap P s =
        (.error e, { s with factory_calls := s.factory_calls + 1 })) ∧
    (∀ r, P.factory s.factory_calls = .ok r →
      createAndWrap P s =
        (.ok r, { s with total_created := s.total_created + 1,
                         in_use := s.in_use + 1,
                         factory_calls := s.factory_calls + 1 })) := by
  refine ⟨?_, ?_, ?_, ?_, ?_⟩
  · intro r rest hav
    constructor
    · intro hv
      unfold acquire
      rw [hav]
      dsimp only
      rw [if_pos hv]
    · intro hv
      unfold acquire
      rw [hav]
      dsimp only
      rw [if_neg (by simp [hv])]
  · intro hav hex
    unfold acquire
    rw [hav]
    dsimp only
    rw [if_pos hex]
  · intro hav hlt
    unfold acquire
    rw [hav]
    dsimp only
    rw [if_neg (by omega)]
  · intro e hf
    unfold createAndWrap
    rw [hf]
  · intro r hf
    unfold createAndWrap
    rw [hf]

/-- Witness for C1 at a concrete input: idle deque `[5]`, no validation
rejection, so the front resource is handed out and `in_use` goes from 1
to 2. -/
theorem acquire_follows_algorithm_witness :
    (witP.config.validate_on_acquire && rejects witP 5) = false ∧
    acquire witP ⟨[5], 1, 3, 4⟩ = (.ok 5, ⟨[], 2, 3, 4⟩) := by
  refine ⟨by decide, ?_⟩
  exact ((acquire_follows_algorithm witP ⟨[5], 1, 3, 4⟩).1 5 [] rfl).2 (by decide)

/-- C3: pool construction succeeds exactly when `max_size > 0` and
`min_size ≤ max_size`; a successful construction yields a pool with at
most `min_size` idle resources (failed pre-warm attempts are skipped)
and `in_use = 0`; otherwise construction fails with a configuration
error and no pool is produced. -/
theorem construction_validates (P : PoolFuns T) :
    (0 < P.config.max_size ∧ P.config.min_size ≤ P.config.max_size →
      createPool P = .ok (construct P) ∧
      (construct P).available.length ≤ P.config.min_size ∧
      (construct P).in_use = 0) ∧
    (P.config.max_size = 0 ∨ P.config.max_size < P.config.min_size →
      ∃ e, createPool P = .error e) := by
  constructor
  · rintro ⟨h1, h2⟩
    have hok : validateConfig P.config = .ok () :=
      (validateConfig_ok_iff P.config).2 ⟨by omega, h2⟩
    obtain ⟨c1, c2, c3, c4⟩ := construct_state P
    refine ⟨?_, ?_, c1⟩
    · unfold createPool
      rw [hok]
    · rw [c4]
      exact countOk_le P 0 _
  · intro h
    unfold createPool validateConfig
    by_cases h0 : P.config.max_size = 0
    · rw [if_pos h0]
      exact ⟨_, rfl⟩
    · rw [if_neg h0, if_pos (by omega)]
      exact ⟨_, rfl⟩

/-- Witness for C3: `witP` has `max_size = 2 > 0` and
`min_size = 1 ≤ 2`, so construction succeeds with at most one idle
resource and nothing in use. -/
theorem construction_validates_witness :
    (0 < witP.config.max_size ∧ witP.config.min_size ≤ witP.config.max_size) ∧
    (createPool witP = .ok (construct witP) ∧
     (construct witP).available.length ≤ witP.config.min_size ∧
     (construct witP).in_use = 0) :=
  ⟨⟨by decide, by decide⟩, (construction_validates witP).1 ⟨by decide, by decide⟩⟩

/-- C4: the release path first decrements `in_use` (by exactly one —
release runs through a live handle, so `in_use ≥ 1`); a failing resetter
discards the resource leaving the idle deque unchanged; a rejection by
validate-on-release likewise discards it; otherwise the (possibly
reset) resource is pushed to the back of the idle deque, growing it by
exactly one. -/
theorem release_path_follows_spec (P : PoolFuns T) (s : PoolState T) (r : T)
    (hin : 1 ≤ s.in_use) :
    ((doRelease P s r).in_use = s.in_use - 1 ∧
      (doRelease P s r).in_use + 1 = s.in_use) ∧
    (∀ f e, P.resetter = some f → f r = .error e →
      (doRelease P s r).available = s.available) ∧
    (∀ f r', P.resetter = some f → f r = .ok r' →
      (((P.config.validate_on_release && rejects P r') = true →
         (doRelease P s r).available = s.available) ∧
       ((P.config.validate_on_release && rejects P r') = false →
         (doRelease P s r).available = s.available ++ [r'] ∧
         (doRelease P s r).available.length = s.available.length + 1))) ∧
    (P.resetter = none →
      (((P.config.validate_on_release && rejects P r) = true →
         (doRelease P s r).available = s.available) ∧
       ((P.config.validate_on_release && rejects P r) = false →
         (doRelease P s r).available = s.available ++ [r] ∧
         (doRelease P s r).available.length = s.available.length + 1))) := by
  obtain ⟨d1, _, _, _⟩ := doRelease_fields P s r
  refine ⟨⟨d1, by omega⟩, ?_, ?_, ?_⟩
  · intro f e hres hr
    unfold doRelease
    rw [hres]
    dsimp only
    rw [hr]
  · intro f r' hres hr
    constructor
    · intro hv
      unfold doRelease
      rw [hres]
      dsimp only
      rw [hr]
      dsimp only
      rw [if_pos hv]
    · intro hv
      unfold doRelease
      rw [hres]
      dsimp only
      rw [hr]
      dsimp only
      rw [if_neg (by simp [hv])]
      exact ⟨rfl, by simp⟩
  · intro hres
    constructor
    · intro hv
      unfold doRelease
      rw [hres]
      dsimp only
      rw [if_pos hv]
    · intro hv
      unfold doRelease
      rw [hres]
      dsimp only
      rw [if_neg (by simp [hv])]
      exact ⟨rfl, by simp⟩

/-- Witness for C4: releasing resource 9 into `witP` (no resetter, no
validate-on-release) from `in_use = 1` appends it at the back of the
idle deque. -/
theorem release_path_follows_spec_witness :
    1 ≤ (⟨[7], 1, 2, 2⟩ : PoolState Nat).in_use ∧
    witP.resetter = none ∧
    (witP.config.validate_on_release && rejects witP 9) = false ∧
    (doRelease witP ⟨[7], 1, 2, 2⟩ 9).available = [7] ++ [9] ∧
    (doRelease witP ⟨[7], 1, 2, 2⟩ 9).in_use = 0 := by
  refine ⟨by decide, rfl, by decide, ?_, ?_⟩
  · exact (((release_path_follows_spec witP ⟨[7], 1, 2, 2⟩ 9 (by decide)).2.2.2
      rfl).2 (by decide)).1
  · exact ((release_path_follows_spec witP ⟨[7], 1, 2, 2⟩ 9 (by decide)).1).1

/-- C8: whenever the wait condition of the thread-safe pool is false
(idle non-empty, or room below `max_size`), the post-wait body of
`ThreadSafePool::acquire` performs exactly the same state transition
and returns the same result as the single-threaded `Pool::acquire`. -/
theorem ts_acquire_post_wait_refines (P : PoolFuns T) (s : PoolState T)
    (h : s.available ≠ [] ∨ s.in_use < P.config.max_size) :
    tsAcquirePostWait P s = acquire P s := by
  unfold tsAcquirePostWait acquire
  rcases hav : s.available with _ | ⟨x, rest⟩
  · dsimp only
    rw [if_neg ?_]
    rcases h with h | h
    · exact absurd hav h
    · omega
  · rfl

/-- Witness for C8 on an empty pool with room to create. -/
theorem ts_acquire_post_wait_refines_witness :
    ((⟨[], 0, 0, 0⟩ : PoolState Nat).available ≠ [] ∨
      (⟨[], 0, 0, 0⟩ : PoolState Nat).in_use < witP.config.max_size) ∧
    tsAcquirePostWait witP ⟨[], 0, 0, 0⟩ = acquire witP ⟨[], 0, 0, 0⟩ :=
  ⟨Or.inr (by decide),
   ts_acquire_post_wait_refines witP ⟨[], 0, 0, 0⟩ (Or.inr (by decide))⟩

/-- C9: idle reuse is FIFO by return time: the release path and the
pre-warm loop only ever append at the back of the idle deque, and a
checkout that draws from a non-empty idle deque removes exactly its
front element, handing it out when validation accepts it. -/
theorem fifo_idle_reuse (P : PoolFuns T) (s : PoolState T) (r : T) :
    ((doRelease P s r).available = s.available ∨
      ∃ r', (doRelease P s r).available = s.available ++ [r']) ∧
    ((prewarmStep P s).available = s.available ∨
      ∃ r', (prewarmStep P s).available = s.available ++ [r']) ∧
    (∀ x rest, s.available = x :: rest →
      (acquire P s).2.available = rest ∧
      ((P.config.validate_on_acquire && rejects P x) = false →
        acquire P s =
          (.ok x, { s with available := rest, in_use := s.in_use + 1 }))) := by
  refine ⟨(doRelease_fields P s r).2.2.2, ?_, ?_⟩
  · unfold prewarmStep
    rcases hf : P.factory s.factory_calls with e | v <;> dsimp only
    · exact Or.inl rfl
    · exact Or.inr ⟨v, rfl⟩
  · intro x rest hav
    constructor
    · unfold acquire
      rw [hav]
      dsimp only
      split
      · unfold createAndWrap
        rcases hf : P.factory s.factory_calls with e | v <;> dsimp only
      · rfl
    · intro hv
      unfold acquire
      rw [hav]
      dsimp only
      rw [if_neg (by simp [hv])]

/-- Witness for C9: releasing 9 appends at the back; acquiring pops the
front. -/
theorem fifo_idle_reuse_witness :
    ((⟨[4, 6], 1, 3, 3⟩ : PoolState Nat).available = 4 :: [6] ∧
     (witP.config.validate_on_acquire && rejects witP 4) = false) ∧
    (acquire witP ⟨[4, 6], 1, 3, 3⟩).2.available = [6] ∧
    acquire witP ⟨[4, 6], 1, 3, 3⟩ = (.ok 4, ⟨[6], 2, 3, 3⟩) := by
  refine ⟨⟨rfl, by decide⟩, ?_, ?_⟩
  · exact ((fifo_idle_reuse witP ⟨[4, 6], 1, 3, 3⟩ 0).2.2 4 [6] rfl).1
  · exact ((fifo_idle_reuse witP ⟨[4, 6], 1, 3, 3⟩ 0).2.2 4 [6] rfl).2 (by decide)

/-- C2: in every pool configuration reachable from a factory-validated
construction by checkout and release operations, `in_use ≤ max_size`,
`total_created ≥ in_use`, `total_created` equals the number of creator
invocations that returned success, and no step ever decreases
`total_created`. -/
theorem pool_counter_invariants (P : PoolFuns T) (c : PoolState T × List T)
    (h : Reachable P c) :
    c.1.in_use ≤ P.config.max_size ∧
    c.1.in_use ≤ c.1.total_created ∧
    c.1.total_created = createdCount P c.1.factory_calls ∧
    ∀ c', PoolStep P c c' → c.1.total_created ≤ c'.1.total_created := by
  obtain ⟨hA, hB, hC, hD⟩ := reachable_inv P h
  exact ⟨by omega, by omega, hD, fun c' hs => poolStep_total_mono P hs⟩

/-- Witness for C2 at the freshly constructed `witP` pool. -/
theorem pool_counter_invariants_witness :
    Reachable witP (construct witP, []) ∧
    ((construct witP, ([] : List Nat)).1.in_use ≤ witP.config.max_size ∧
     (construct witP, ([] : List Nat)).1.in_use ≤
       (construct witP, ([] : List Nat)).1.total_created ∧
     (construct witP, ([] : List Nat)).1.total_created =
       createdCount witP (construct witP, ([] : List Nat)).1.factory_calls ∧
     ∀ c', PoolStep witP (construct witP, ([] : List Nat)) c' →
       (construct witP, ([] : List Nat)).1.total_created ≤ c'.1.total_created) :=
  ⟨Reachable.init rfl,
   pool_counter_invariants witP (construct witP, []) (Reachable.init rfl)⟩

/-- C5: a handle's release callback fires at most once over any
sequence of explicit release attempts, move-outs and destruction; once
the callback has fired the resource slot is cleared, so a further
release attempt changes nothing and fires nothing. -/
theorem handle_release_at_most_once (h : PooledResource T R)
    (ops : List HandleOp) :
    (runHandleOps h ops).2 ≤ 1 ∧
    (∀ rel r, (releaseHandle h).2 = some (rel, r) →
      (releaseHandle h).1.resource = none ∧
      releaseHandle (releaseHandle h).1 = ((releaseHandle h).1, none)) := by
  refine ⟨runHandleOps_le_one h ops, ?_⟩
  intro rel r hfire
  obtain ⟨res, rl⟩ := h
  rcases res with _ | x <;> rcases rl with _ | y <;>
    simp [releaseHandle] at hfire ⊢

/-- Witness for C5: a full handle put through an explicit release and
then destruction fires its callback at most once; the first release
clears the slot. -/
theorem handle_release_at_most_once_witness :
    (releaseHandle (⟨some 3, some 0⟩ : PooledResource Nat Nat)).2 =
      some (0, 3) ∧
    (runHandleOps (⟨some 3, some 0⟩ : PooledResource Nat Nat)
        [HandleOp.rel, HandleOp.dtor]).2 ≤ 1 ∧
    (releaseHandle (⟨some 3, some 0⟩ : PooledResource Nat Nat)).1.resource =
      none := by
  refine ⟨rfl,
    (handle_release_at_most_once (⟨some 3, some 0⟩ : PooledResource Nat Nat)
      [HandleOp.rel, HandleOp.dtor]).1, ?_⟩
  exact ((handle_release_at_most_once
    (⟨some 3, some 0⟩ : PooledResource Nat Nat) []).2 0 3 rfl).1

/-- C6 counterexample: after move-construction from a full handle the
SOURCE handle still reports `has_value() = true` — the moved-from
`std::optional` remains engaged (only the releaser is nulled) — so the
claim that the source "holds no resource (has_value() is false)" fails
on the code. -/
theorem moved_from_source_still_has_value :
    hasValue (moveCtor (⟨some 7, some 0⟩ : PooledResource Nat Nat)).2 ≠
      false := by
  decide

/-- C6 (amended): move-construction transfers both the resource and the
release obligation to the destination; the source's releaser is nulled,
so any subsequent release or destruction of the source is a no-op and
never fires the callback — but the source's `has_value()` may still be
true, since the moved-from optional stays engaged. -/
theorem move_transfers_ownership (other : PooledResource T R) :
    (moveCtor other).1.resource = other.resource ∧
    (moveCtor other).1.releaser = other.releaser ∧
    (moveCtor other).2.releaser = none ∧
    releaseHandle (moveCtor other).2 = ((moveCtor other).2, none) ∧
    (runHandleOps (moveCtor other).2 [HandleOp.dtor]).2 = 0 := by
  obtain ⟨res, rel⟩ := other
  refine ⟨rfl, rfl, rfl, ?_, ?_⟩ <;> rcases res with _ | r <;>
    simp [moveCtor, releaseHandle, runHandleOps, applyHandleOp]

/-- C7: `with_resource` on a pool whose creator always fails, starting
from an empty idle deque with nothing in use (and a creatable
configuration, `max_size > 0`), returns the creation error and leaves
the pool state unchanged: `in_use` is still 0, `total_created` and the
idle deque keep their prior values. -/
theorem with_resource_error_atomicity (P : PoolFuns T) (f : T → R × T)
    (s : PoolState T)
    (hfail : ∀ n, ∃ e, P.factory n = .error e)
    (hav : s.available = []) (hin : s.in_use = 0)
    (hmax : 0 < P.config.max_size) :
    ∃ e, P.factory s.factory_calls = .error e ∧
      withResource P f s =
        (.error e, { s with factory_calls := s.factory_calls + 1 }) ∧
      (withResource P f s).2.in_use = 0 ∧
      (withResource P f s).2.total_created = s.total_created ∧
      (withResource P f s).2.available = [] := by
  obtain ⟨e, he⟩ := hfail s.factory_calls
  have hacq : acquire P s =
      (.error e, { s with factory_calls := s.factory_calls + 1 }) := by
    unfold acquire
    rw [hav]
    dsimp only
    rw [if_neg (by omega)]
    unfold createAndWrap
    rw [he]
    dsimp only
    rw [hav]
  refine ⟨e, he, ?_, ?_, ?_, ?_⟩
  · unfold withResource
    rw [hacq]
  · unfold withResource
    rw [hacq]
    dsimp only
    exact hin
  · unfold withResource
    rw [hacq]
  · unfold withResource
    rw [hacq]
    dsimp only
    exact hav

/-- Witness for C7: `witPfail`'s creator always fails; `with_resource`
on an empty pool propagates the creation error and leaves the counters
as they were. -/
theorem with_resource_error_atomicity_witness :
    ((⟨[], 0, 5, 2⟩ : PoolState Nat).available = [] ∧
     (⟨[], 0, 5, 2⟩ : PoolState Nat).in_use = 0 ∧
     0 < witPfail.config.max_size) ∧
    (∃ e, witPfail.factory 2 = .error e ∧
      withResource witPfail (fun r => (r, r)) ⟨[], 0, 5, 2⟩ =
        (.error e, ⟨[], 0, 5, 3⟩) ∧
      (withResource witPfail (fun r => (r, r)) ⟨[], 0, 5, 2⟩).2.in_use = 0 ∧
      (withResource witPfail (fun r => (r, r))
          ⟨[], 0, 5, 2⟩).2.total_created = 5 ∧
      (withResource witPfail (fun r => (r, r)) ⟨[], 0, 5, 2⟩).2.available =
        []) :=
  ⟨⟨rfl, rfl, by decide⟩,
   with_resource_error_atomicity witPfail (fun r => (r, r)) ⟨[], 0, 5, 2⟩
     (fun n => ⟨"creation failed", rfl⟩) rfl rfl (by decide)⟩

/-- C10 counterexample: after move-assigning B into A, the source B
still reports `has_value() = true` (its moved-from optional remains
engaged; only its releaser is nulled), so the part of the claim that B
is left empty fails on the code. -/
theorem move_assign_source_still_has_value :
    hasValue (moveAssign (⟨some 1, some 10⟩ : PooledResource Nat Nat)
        ⟨some 2, some 20⟩).2.1 ≠ false := by
  decide

/-- C10 (amended): move-assigning B into a handle A that holds both a
resource and a releaser first fires A's callback exactly once with A's
resource, then A takes over B's resource and release obligation; B's
releaser is nulled, so a subsequent release of B is a no-op (though B's
`has_value()` may still be true); self-move-assignment leaves the
handle unchanged and fires no callback. -/
theorem move_assign_releases_then_takes_over (a b : PooledResource T R)
    (ra : T) (rel : R)
    (ha : a.resource = some ra) (hrel : a.releaser = some rel) :
    (moveAssign a b).2.2 = some (rel, ra) ∧
    (moveAssign a b).1.resource = b.resource ∧
    (moveAssign a b).1.releaser = b.releaser ∧
    (moveAssign a b).2.1.releaser = none ∧
    releaseHandle (moveAssign a b).2.1 = ((moveAssign a b).2.1, none) ∧
    moveAssignSelf a = (a, none) := by
  obtain ⟨resa, rela⟩ := a
  dsimp only at ha hrel
  subst ha
  subst hrel
  obtain ⟨resb, relb⟩ := b
  refine ⟨rfl, rfl, rfl, rfl, ?_, rfl⟩
  rcases resb with _ | x <;> simp [moveAssign, releaseHandle]

/-- Witness for C10 at concrete handles: A = (1, releaser 10),
B = (2, releaser 20). -/
theorem move_assign_releases_then_takes_over_witness :
    ((⟨some 1, some 10⟩ : PooledResource Nat Nat).resource = some 1 ∧
     (⟨some 1, some 10⟩ : PooledResource Nat Nat).releaser = some 10) ∧
    ((moveAssign (⟨some 1, some 10⟩ : PooledResource Nat Nat)
        ⟨some 2, some 20⟩).2.2 = some (10, 1) ∧
     (moveAssign (⟨some 1, some 10⟩ : PooledResource Nat Nat)
        ⟨some 2, some 20⟩).1.resource = some 2 ∧
     (moveAssign (⟨some 1, some 10⟩ : PooledResource Nat Nat)
        ⟨some 2, some 20⟩).1.releaser = some 20 ∧
     (moveAssign (⟨some 1, some 10⟩ : PooledResource Nat Nat)
        ⟨some 2, some 20⟩).2.1.releaser = none) := by
  have h := move_assign_releases_then_takes_over
    (⟨some 1, some 10⟩ : PooledResource Nat Nat) ⟨some 2, some 20⟩ 1 10 rfl rfl
  exact ⟨⟨rfl, rfl⟩, h.1, h.2.1, h.2.2.1, h.2.2.2.1⟩

end PoolFactory
